import Mathlib

/-!
Verification of the SoftLayer CLI dispatch/format core and its mockable
test transport, shallowly embedded from `SoftLayer/CLI/core.py` and
`SoftLayer/testing/__init__.py`.
-/

namespace SLVerify

/-! ## Values carried by API calls

Python attribute values on a `Call` (transport request) are dynamically
typed; the values the harness compares (`identifier`, `args`, `mask`,
`filter`, `limit`, `offset`) are modelled by a small closed value type. -/

inductive PVal where
  | null
  | int (n : Int)
  | str (s : String)
  | list (xs : List String)
deriving DecidableEq, Repr

/-- One recorded remote invocation (the transport `Call` / request object):
service name, method name and the optional request properties. -/
structure Call where
  service : String
  method : String
  identifier : PVal
  args : PVal
  mask : PVal
  filter : PVal
  limit : PVal
  offset : PVal
deriving DecidableEq, Repr

/-- Result of a transport invocation: decoded data, or a raised provider
error (a Python exception escaping the responder or inner transport). -/
inductive TResult where
  | ok (value : String)
  | error (message : String)
deriving DecidableEq, Repr

/-- A transport / mock responder is a callable taking a `Call`. -/
def Responder : Type := Call → TResult

/-! ## MockableTransport (`SoftLayer/testing/__init__.py`)

State of `MockableTransport`: the in-memory call log `calls` and the mock
registry `mocked` keyed by `_mock_key(service, method)`.  The Python dict
is modelled as an association list; `set_mock` prepends, and `List.lookup`
returns the most recent registration, so the last registration for a key
wins, as in the dict. -/

structure MockableTransport where
  calls : List Call
  mocked : List (String × Responder)

/-- Python `_mock_key(service, method)`: key addressing a mock object. -/
def mock_key (service method : String) : String :=
  service ++ "::" ++ method

/-- Python `MockableTransport._record_call`: append the call to the in-memory log
(the `logging.info` side channel carries no state and is not modelled). -/
def record_call (st : MockableTransport) (c : Call) : MockableTransport :=
  { st with calls := st.calls ++ [c] }

/-- Python `MockableTransport.__call__`: record the call, then answer from the
mock registry when `(service, method)` is mocked, otherwise fall back to
the wrapped inner transport. -/
def transport_call (inner : Responder) (st : MockableTransport) (c : Call) :
    TResult × MockableTransport :=
  let st1 := record_call st c
  match st1.mocked.lookup (mock_key c.service c.method) with
  | some responder => (responder c, st1)
  | none => (inner c, st1)

/-- Python `MockableTransport.set_mock`: register (or replace) the responder for
`(service, method)`. -/
def set_mock (st : MockableTransport) (service method : String)
    (resp : Responder) : MockableTransport :=
  { st with mocked := (mock_key service method, resp) :: st.mocked }

/-- Running a sequence of calls through the transport, threading the state. -/
def run_calls (inner : Responder) (st : MockableTransport) :
    List Call → MockableTransport
  | [] => st
  | c :: rest => run_calls inner (transport_call inner st c).2 rest

/-! ## Exceptions escaping the dispatch pipeline (`main` in `CLI/core.py`)

`main` wraps the whole pipeline in one `try` with four `except` clauses, in
source order: `KeyboardInterrupt`, `CLIAbort`, `SystemExit`,
`(SoftLayerError, Exception)`; it then calls `sys.exit(exit_status)`.
The exception classes `CLIHalt`/`CLIAbort` live in `SoftLayer.CLI.helpers`.
Modelled from the spec: the error taxonomy of section 7 — a controlled
abort carries a message and a declared exit code, a controlled halt and an
explicit process-exit request carry a code and no message, and both the
halt and the abort are process-exit requests (`CLIAbort` ≤ `CLIHalt` ≤
`SystemExit`), while provider errors and all remaining errors are ordinary
exceptions. -/

inductive Exc where
  | keyboardInterrupt
  | cliAbort (message : String) (code : Int)
  | cliHalt (code : Int)
  | systemExit (code : Int)
  | softLayerError (message : String)
  | otherError (message : String)
deriving DecidableEq, Repr

/-- The four `except` clauses of `main`, in source order. -/
inductive ExcClause where
  | kbdInt
  | abortClause
  | sysExitClause
  | genericClause
deriving DecidableEq, Repr

/-- Python `except`-clause matching: does the clause's class (tuple) cover
the raised exception?  Encodes the class hierarchy described above:
`CLIAbort` and `CLIHalt` are subclasses of `SystemExit`;
`KeyboardInterrupt` and `SystemExit` derive from `BaseException` only, so
the `(SoftLayerError, Exception)` clause does not cover them. -/
def clauseMatches : ExcClause → Exc → Bool
  | .kbdInt, .keyboardInterrupt => true
  | .kbdInt, _ => false
  | .abortClause, .cliAbort _ _ => true
  | .abortClause, _ => false
  | .sysExitClause, .cliAbort _ _ => true
  | .sysExitClause, .cliHalt _ => true
  | .sysExitClause, .systemExit _ => true
  | .sysExitClause, _ => false
  | .genericClause, .softLayerError _ => true
  | .genericClause, .otherError _ => true
  | .genericClause, _ => false

/-- The `except` clauses in the order `main` lists them. -/
def exceptOrder : List ExcClause :=
  [.kbdInt, .abortClause, .sysExitClause, .genericClause]

/-- Python semantics: the first clause (in source order) whose class covers
the raised exception is the one — and the only one — that executes. -/
def firstMatching (e : Exc) : Option ExcClause :=
  exceptOrder.find? (fun cl => clauseMatches cl e)

/-- The attribute `e.code` as read by the `CLIAbort` / `SystemExit` handler bodies (the
other constructors carry no `code` attribute and never reach those
bodies; a default of 1 stands in for them). -/
def excCode : Exc → Int
  | .cliAbort _ c => c
  | .cliHalt c => c
  | .systemExit c => c
  | _ => 1

/-- The string the handler bodies print: `str(e.message)` for a
`CLIAbort`, `str(e)` for a generic exception (empty for the constructors
whose handler body prints nothing). -/
def excStr : Exc → String
  | .cliAbort m _ => m
  | .softLayerError m => m
  | .otherError m => m
  | _ => ""

/-- The body of each `except` clause in `main`: what it prints via
`env.out` (if anything) and the `exit_status` it sets. -/
def clauseAction : ExcClause → Exc → Option String × Int
  | .kbdInt, _ => (none, 1)
  | .abortClause, e => (some (excStr e), excCode e)
  | .sysExitClause, e => (none, excCode e)
  | .genericClause, e => (some (excStr e), 1)

/-- The observable outcome of `main` when exception `e` escapes the
dispatch pipeline: the message printed (if any) and the exit status then
passed to `sys.exit`.  When no clause matches (never the case here) the
exception would propagate; `(none, 0)` is a placeholder for that
unreachable branch. -/
def main_on_exc (e : Exc) : Option String × Int :=
  match firstMatching e with
  | some cl => clauseAction cl e
  | none => (none, 0)

/-! ## `parse_primary_args` (`CLI/core.py`)

Shallow embedding for argument vectors made of plain (non-option) tokens,
which is the territory of the claims: the positional `module` (with
`nargs` `?`, default `help`, and `choices = sorted(['help'] + modules)`)
takes the first token, the positional `aux` (`nargs` `*`) takes the rest,
and `parse_known_args` returns no leftover unknown arguments.  argparse
validates the consumed token against `choices` by exact string equality;
only after successful parsing does the code lower-case it and test for
`help`.  A failed choices check calls `parser.error`, which prints usage
and raises `SystemExit(2)`. -/

inductive PrimaryResult where
  | halt (code : Int)
  | usageError (code : Int)
  | ok (module_name : String) (aux : List String) (unknown : List String)
deriving DecidableEq, Repr

/-- Python str.lower(), character by character (module names are ASCII). -/
def strLower (s : String) : String :=
  String.mk (s.data.map Char.toLower)

/-- Python `parse_primary_args(modules, argv)` for plain-token `argv`. -/
def parse_primary_args (modules : List String) (argv : List String) :
    PrimaryResult :=
  let choices := "help" :: modules
  let tok := (argv.head?).getD "help"
  if tok ∈ choices then
    let module_name := strLower tok
    if module_name = "help" then PrimaryResult.halt 0
    else PrimaryResult.ok module_name argv.tail []
  else PrimaryResult.usageError 2

/-! ## `parse_module_args` (`CLI/core.py`) -/

/-- Joining a list of strings with a separator (used to model Python
`join` calls and the comma-joined argparse choice list). -/
def joinSep (sep : String) : List String → String
  | [] => ""
  | [x] => x
  | x :: xs => x ++ sep ++ joinSep sep xs

/-- Concatenation of a list of strings. -/
def concatStr : List String → String
  | [] => ""
  | x :: xs => x ++ concatStr xs

/-- The string `nee` occurs as a contiguous substring of `hay`. -/
def StrContains (hay nee : String) : Prop :=
  ∃ pre post, hay.data = pre ++ nee.data ++ post

/-- The action names argparse registers as sub-commands: the loop body is
guarded by `if action_name:`, so falsy (empty) names are skipped. -/
def action_names (actions : List (String × String)) : List String :=
  (actions.filter (fun a => a.1 ≠ "")).map (fun a => a.1)

/-- Modelled from the argparse library: the text `parser.print_help()`
emits for the sub-command parser built in `parse_module_args` — a usage
line showing the brace-wrapped choice list of sub-command names, the
module's doc string, and one help line per registered sub-command (name
and its doc string).  `progBase` stands for
`os.path.basename(sys.argv[0])`. -/
def module_help_text (progBase module_name moduleDoc : String)
    (actions : List (String × String)) : String :=
  "usage: " ++ progBase ++ " " ++ module_name ++ " [-h] \x7b"
    ++ joinSep "," (action_names actions) ++ "\x7d ...\n\n"
    ++ moduleDoc ++ "\n\npositional arguments:\n  \x7b"
    ++ joinSep "," (action_names actions) ++ "\x7d\n"
    ++ concatStr (actions.map (fun a =>
        if a.1 = "" then "" else "    " ++ a.1 ++ "  " ++ a.2 ++ "\n"))

/-- Outcome of `parse_module_args`: a controlled halt (`CLIHalt` raised
after `parser.print_help()`), or control proceeding into
`parser.parse_args(args)` on the combined argument list (whose internals
no claim depends on). -/
inductive ModuleArgsResult where
  | halt (code : Int) (helpText : String)
  | proceed (args : List String)
deriving DecidableEq, Repr

/-- Python `parse_module_args(module, module_name, actions, posargs, argv)`:
builds the sub-parser (one sub-command per non-falsy action name, each
with the action's extra arguments plus the universal `--format` and
`--config` flags — parser construction has no observable effect outside
the help text), then halts with usage when no positional arguments were
supplied, and otherwise parses `posargs + argv`. -/
def parse_module_args (progBase moduleDoc module_name : String)
    (actions : List (String × String)) (posargs argv : List String) :
    ModuleArgsResult :=
  let args := posargs ++ argv
  if posargs.length = 0 then
    ModuleArgsResult.halt 0 (module_help_text progBase module_name moduleDoc actions)
  else
    ModuleArgsResult.proceed args

/-! ## Call-log queries and assertions (`SoftLayer/testing/__init__.py`) -/

/-- The attributes of a `Call` that `getattr` can read in
`call_has_props` / `_record_call`. -/
inductive CallProp where
  | service
  | method
  | identifier
  | args
  | mask
  | filter
  | limit
  | offset
deriving DecidableEq, Repr

/-- Python `getattr(call, prop)` for the modelled attributes. -/
def Call.getProp (c : Call) : CallProp → PVal
  | .service => PVal.str c.service
  | .method => PVal.str c.method
  | .identifier => c.identifier
  | .args => c.args
  | .mask => c.mask
  | .filter => c.filter
  | .limit => c.limit
  | .offset => c.offset

/-- Python `TestCase.calls(service, method)`: the logged calls, filtered by
service and/or method when given, in insertion order. -/
def calls_query (log : List Call) (service method : Option String) :
    List Call :=
  log.filter (fun c =>
    (match service with | some s => c.service == s | none => true)
    && (match method with | some m => c.method == m | none => true))

/-- One `logging.info` record emitted by `call_has_props` on a property
mismatch: which call, which property, expected and actual value. -/
structure MismatchLog where
  service : String
  method : String
  prop : CallProp
  expected : PVal
  actual : PVal
deriving DecidableEq, Repr

/-- Python `call_has_props(call, props)`: walks the expected property/value
pairs; on the first mismatch it logs the property with expected and
actual values and returns `False`; with no mismatch it returns `True`.
Result: the returned boolean and the log records emitted. -/
def call_has_props (c : Call) : List (CallProp × PVal) → Bool × List MismatchLog
  | [] => (true, [])
  | (p, expected) :: rest =>
      let actual := c.getProp p
      if actual ≠ expected then
        (false, [⟨c.service, c.method, p, expected, actual⟩])
      else
        call_has_props c rest

/-- Python percent-rendering of a `PVal` (approximating `%r`: quoting of
strings is elided; only determinism of the text matters to the claims). -/
def PVal.render : PVal → String
  | .null => "None"
  | .int n => toString n
  | .str s => s
  | .list xs => "[" ++ joinSep ", " xs ++ "]"

/-- The `CallProp` keyword name as it appears in the props dict rendering. -/
def CallProp.render : CallProp → String
  | .service => "service"
  | .method => "method"
  | .identifier => "identifier"
  | .args => "args"
  | .mask => "mask"
  | .filter => "filter"
  | .limit => "limit"
  | .offset => "offset"

/-- The `AssertionError` message raised by `assert_called_with` when no
logged call matches: names the service, the method and the expected
props dict. -/
def assert_msg (service method : String) (props : List (CallProp × PVal)) :
    String :=
  service ++ "::" ++ method ++ " was not called with given properties: \x7b"
    ++ joinSep ", " (props.map (fun pv => pv.1.render ++ ": " ++ pv.2.render))
    ++ "\x7d"

/-- The loop of `assert_called_with` over the filtered calls: returns
normally (no raised message) at the first call matching every expected
property; raises the assertion message after exhausting the calls.  Also
collects the mismatch log records in emission order. -/
def assert_loop (service method : String) (props : List (CallProp × PVal)) :
    List Call → Option String × List MismatchLog
  | [] => (some (assert_msg service method props), [])
  | c :: rest =>
      let r := call_has_props c props
      if r.1 then (none, r.2)
      else
        let next := assert_loop service method props rest
        (next.1, r.2 ++ next.2)

/-- Python `TestCase.assert_called_with(service, method, **props)` over the call
log `log`: filter the log to the service/method, then scan for a call
with all the expected properties. -/
def assert_called_with (log : List Call) (service method : String)
    (props : List (CallProp × PVal)) : Option String × List MismatchLog :=
  assert_loop service method props (calls_query log (some service) (some method))

/-! ## prettytable objects

`format_prettytable` and `format_no_tty` build a prettytable object from
the Table (`table.prettytable()`) and then set rendering attributes on
it.  The attribute set below is the part of the external prettytable
library's state the source touches, plus the cell data. -/

inductive HRuleStyle where
  | frame
  | noRules
deriving DecidableEq, Repr

/-- A prettytable object: columns, stringified cell data, and the
rendering attributes the source assigns (`hrules`, `horizontal_char`,
`vertical_char`, `junction_char`, `border`, `header`, per-column `align`,
kept as the set of left-aligned columns since `'l'` is the only value the
source ever assigns). -/
structure PTable where
  columns : List String
  rows : List (List String)
  hrules : HRuleStyle
  horizontal_char : Char
  vertical_char : Char
  junction_char : Char
  border : Bool
  header : Bool
  leftAlignedCols : List String
deriving DecidableEq, Repr

/-- A fresh prettytable with the library's defaults (`FRAME` rules,
`-`/`|`/`+` glyphs, bordered, with a header row, centred columns). -/
def mkPrettyTable (cols : List String) (rows : List (List String)) : PTable :=
  ⟨cols, rows, HRuleStyle.frame, '-', '|', '+', true, true, []⟩

/-- Width of column `i`: the widest of the column name and the cells in
that column (modelled from the prettytable library's width computation). -/
def colWidth (t : PTable) (i : Nat) : Nat :=
  (t.rows.map (fun r => ((r.get? i).getD "").length)).foldl max
    ((t.columns.get? i).getD "").length

/-- Pad a cell's characters to width `w`: left-aligned cells get trailing
spaces, others are centred (the library default). -/
def padTo (w : Nat) (alignLeft : Bool) (s : List Char) : List Char :=
  if alignLeft then s ++ List.replicate (w - s.length) ' '
  else
    List.replicate ((w - s.length) / 2) ' ' ++ s
      ++ List.replicate (w - s.length - (w - s.length) / 2) ' '

/-- Is column `i` left-aligned in `t`? -/
def alignLeftAt (t : PTable) (i : Nat) : Bool :=
  t.leftAlignedCols.contains ((t.columns.get? i).getD "")

/-- One rendered cell with its one-space margins. -/
def cellChunk (t : PTable) (i : Nat) (s : String) : List Char :=
  ' ' :: (padTo (colWidth t i) (alignLeftAt t i) s.data ++ [' '])

/-- A rendered row line: cells with margins, separated and framed by the
vertical char when bordered, plainly concatenated otherwise (with
`border = False` the library replaces the vertical chars by nothing). -/
def rowLine (t : PTable) (r : List String) : List Char :=
  if t.border then
    t.vertical_char ::
      ((List.range t.columns.length).map (fun i =>
        cellChunk t i ((r.get? i).getD "") ++ [t.vertical_char])).flatten
  else
    ((List.range t.columns.length).map (fun i =>
      cellChunk t i ((r.get? i).getD ""))).flatten

/-- A horizontal rule line: junction char between runs of the horizontal
char spanning each padded column. -/
def ruleLine (t : PTable) : List Char :=
  t.junction_char ::
    ((List.range t.columns.length).map (fun i =>
      List.replicate (colWidth t i + 2) t.horizontal_char
        ++ [t.junction_char])).flatten

/-- The rendered lines of a prettytable (modelled from the library's
`get_string`): framing rules when `hrules` is `FRAME`, the header row
with its separating rule when `header` is on, then the data rows. -/
def PTable.renderLines (t : PTable) : List (List Char) :=
  (if t.hrules = HRuleStyle.frame then [ruleLine t] else [])
    ++ (if t.header then
          [rowLine t t.columns]
            ++ (if t.hrules = HRuleStyle.frame then [ruleLine t] else [])
        else [])
    ++ t.rows.map (fun r => rowLine t r)
    ++ (if t.hrules = HRuleStyle.frame then [ruleLine t] else [])

/-- Newline-joined character stream of the rendered lines. -/
def joinLines : List (List Char) → List Char
  | [] => []
  | [l] => l
  | l :: ls => l ++ '\n' :: joinLines ls

/-- Python str() of a prettytable object: the rendered table text. -/
def PTable.render (t : PTable) : String :=
  String.mk (joinLines t.renderLines)

/-! ## Displayable values and the formatter (`CLI/core.py`)

The closed variant of values `format_output` inspects: plain text
(`basestring`), a `Table` (ordered column names and rows of nested
cells), a `FormattedItem`, a list, or a prettytable object produced by an
earlier formatting step; anything else is passed through by the final
`return data` exactly as these are. -/

inductive Data where
  | str : String → Data
  | table : List String → List (List Data) → Data
  | fitem : String → String → Data
  | dlist : List Data → Data
  | pretty : PTable → Data
deriving Repr

/-- Python `str(value)` on a displayable value.  The `fitem` case is
modelled from the spec: a FormattedItem is a pair of a raw (machine)
value and a human-formatted display string, and its plain string form is
the raw value.  `table` and `dlist` cells are pre-formatted away before
any stringification in the source, so opaque object-repr markers stand in
for them. -/
def Data.toText : Data → String
  | .str s => s
  | .fitem original _ => original
  | .pretty t => t.render
  | .table _ _ => "<Table object>"
  | .dlist _ => "<list object>"

/-- Modelled from the spec: the helper `listing(items, separator)` joins
the stringified elements with the separator, producing plain text. -/
def listing (xs : List Data) (sep : String) : String :=
  joinSep sep (xs.map Data.toText)

/-- The value of `os.linesep`, the platform line separator. -/
def os_linesep : String := "\n"

/-- Python `Table.prettytable()` (modelled from the spec's Table data model): a
prettytable carrying the Table's column names and its rows with each cell
stringified. -/
def table_prettytable (cols : List String) (rows : List (List Data)) : PTable :=
  mkPrettyTable cols (rows.map (fun r => r.map Data.toText))

/-- Python `format_no_tty(table)`: build the prettytable, left-align every
column of the Table, then disable rules, border and header. -/
def format_no_tty (cols : List String) (rows : List (List Data)) : PTable :=
  let t := table_prettytable cols rows
  { t with
      leftAlignedCols := cols
      hrules := HRuleStyle.noRules
      border := false
      header := false }

mutual

/-- Python `format_output(data, fmt='table')`: text is returned unchanged; a
Table is rendered by `format_prettytable` in `table` mode and by
`format_no_tty` in `raw` mode (any other mode falls through to the final
passthrough); a FormattedItem yields its display string unless the mode
is `raw`, in which case it falls through unchanged; a list becomes
`format_output(listing(data, separator=os.linesep))`, and since `listing`
yields plain text the recursive call returns that text unchanged;
everything else is returned unchanged. -/
def format_output (data : Data) (fmt : String) : Data :=
  match data with
  | .str _ => data
  | .table cols rows =>
      if fmt = "table" then Data.pretty (format_prettytable cols rows)
      else if fmt = "raw" then Data.pretty (format_no_tty cols rows)
      else data
  | .fitem original formatted =>
      if fmt ≠ "raw" then Data.str formatted else Data.fitem original formatted
  | .dlist xs => Data.str (listing xs os_linesep)
  | .pretty _ => data

/-- Python `format_prettytable(table)`: format every cell in place with the
default `table` mode, build the prettytable from the mutated rows, then
set `FRAME` rules and the `.`/`:`/`:` border glyphs. -/
def format_prettytable (cols : List String) (rows : List (List Data)) : PTable :=
  let t := table_prettytable cols (format_rows rows)
  { t with
      hrules := HRuleStyle.frame
      horizontal_char := '.'
      vertical_char := ':'
      junction_char := ':' }

/-- The outer cell-mutation loop of `format_prettytable`. -/
def format_rows : List (List Data) → List (List Data)
  | [] => []
  | r :: rs => format_row r :: format_rows rs

/-- The inner cell-mutation loop of `format_prettytable`:
`table.rows[i][j] = format_output(item)`. -/
def format_row : List Data → List Data
  | [] => []
  | d :: ds => format_output d "table" :: format_row ds

end

/-- The source `Table` object: ordered column names and rows of cells. -/
structure TableObj where
  columns : List String
  rows : List (List Data)

/-- State-passing form of `format_prettytable`: the prettytable it
returns together with the caller's Table as the in-place cell mutation
leaves it. -/
def format_prettytable_st (t : TableObj) : PTable × TableObj :=
  (format_prettytable t.columns t.rows, ⟨t.columns, format_rows t.rows⟩)

/-! ## Concrete instances used by the witnesses -/

/-- A concrete API call. -/
def wCall : Call :=
  ⟨"SoftLayer_Account", "getObject", PVal.int 123, PVal.list [],
    PVal.null, PVal.null, PVal.null, PVal.null⟩

/-- A concrete mock responder. -/
def wResp : Responder := fun _ => TResult.ok "X"

/-- A concrete inner transport whose result reveals it was invoked. -/
def wInner : Responder := fun _ => TResult.ok "inner result"

/-- A concrete inner transport that raises a provider error. -/
def wFailingInner : Responder := fun _ => TResult.error "boom"

/-- A transport state with one registered mock. -/
def wState : MockableTransport :=
  ⟨[], [("SoftLayer_Account::getObject", wResp)]⟩

/-- A transport state with an empty registry and log. -/
def wEmptyState : MockableTransport := ⟨[], []⟩

end SLVerify

namespace SLVerify

theorem run_calls_log (inner : Responder) :
    ∀ (cs : List Call) (st : MockableTransport),
      (run_calls inner st cs).calls = st.calls ++ cs := by
  intro cs
  induction cs with
  | nil => intro st; simp [run_calls]
  | cons c rest ih =>
      intro st
      simp only [run_calls, ih, transport_call, record_call]
      cases h : (List.lookup (mock_key c.service c.method) st.mocked) <;> simp

/-- C1: on every invocation of `MockableTransport.__call__`, when the mock
registry holds the key for the call's service and method the transport
returns the registered responder's result and the inner transport is never
consulted (the outcome is the same for every inner transport); when the
key is absent it returns the inner transport's result unchanged; and in
both branches the call is appended to the in-memory call log. -/
theorem C1_mock_dispatch (inner : Responder) (st : MockableTransport)
    (c : Call) :
    (∀ r : Responder,
        st.mocked.lookup (mock_key c.service c.method) = some r →
          transport_call inner st c = (r c, record_call st c)
          ∧ ∀ inner2 : Responder, (transport_call inner2 st c).1 = r c)
    ∧ (st.mocked.lookup (mock_key c.service c.method) = none →
        transport_call inner st c = (inner c, record_call st c))
    ∧ (transport_call inner st c).2.calls = st.calls ++ [c] := by
  refine ⟨fun r hr => ⟨?_, fun inner2 => ?_⟩, fun hn => ?_, ?_⟩
  · simp [transport_call, record_call, hr]
  · simp [transport_call, record_call, hr]
  · simp [transport_call, record_call, hn]
  · simp only [transport_call, record_call]
    cases h : (List.lookup (mock_key c.service c.method) st.mocked) <;> simp [h]

/-- Witness for C1 at a concrete mocked call and a concrete unmocked call. -/
theorem C1_mock_dispatch_witness :
    (transport_call wInner wState wCall).1 = TResult.ok "X"
    ∧ (transport_call wInner wState wCall).2.calls = [wCall]
    ∧ (transport_call wInner wEmptyState wCall).1 = TResult.ok "inner result" := by
  have h := C1_mock_dispatch wInner wState wCall
  have h2 := C1_mock_dispatch wInner wEmptyState wCall
  have hl : wState.mocked.lookup (mock_key wCall.service wCall.method) = some wResp := rfl
  have hn : wEmptyState.mocked.lookup (mock_key wCall.service wCall.method) = none := rfl
  refine ⟨?_, ?_, ?_⟩
  · rw [(h.1 wResp hl).1]; rfl
  · simpa [wState] using h.2.2
  · rw [h2.2.1 hn]; rfl

/-- C10: the call is appended to the log before the registry or the inner
transport is consulted, so the append happens regardless of the outcome —
in particular it is not rolled back when the answering transport reports
an error — and running any sequence of calls records all of them, in
order, duplicates kept. -/
theorem C10_log_is_append_only (inner : Responder) (st : MockableTransport)
    (c : Call) :
    (transport_call inner st c).2.calls = st.calls ++ [c]
    ∧ (∀ msg, (transport_call inner st c).1 = TResult.error msg →
        (transport_call inner st c).2.calls = st.calls ++ [c])
    ∧ (∀ cs : List Call, (run_calls inner st cs).calls = st.calls ++ cs) := by
  refine ⟨?_, fun msg _ => ?_, fun cs => run_calls_log inner cs st⟩ <;>
    · simp only [transport_call, record_call]
      cases h : (List.lookup (mock_key c.service c.method) st.mocked) <;> simp [h]

/-- Witness for C10 at a concrete call whose inner transport raises. -/
theorem C10_log_is_append_only_witness :
    (transport_call wFailingInner wEmptyState wCall).1 = TResult.error "boom"
    ∧ (transport_call wFailingInner wEmptyState wCall).2.calls = [wCall]
    ∧ (run_calls wFailingInner wEmptyState [wCall, wCall]).calls = [wCall, wCall] := by
  have h := C10_log_is_append_only wFailingInner wEmptyState wCall
  have hr : (transport_call wFailingInner wEmptyState wCall).1 = TResult.error "boom" := rfl
  refine ⟨hr, ?_, ?_⟩
  · simpa [wEmptyState] using h.2.1 "boom" hr
  · simpa [wEmptyState] using h.2.2 [wCall, wCall]

/-- C2: every exception escaping the dispatch pipeline is caught by
exactly one `except` clause (the first matching one, and one always
matches) and `main` terminates the process: a keyboard interrupt exits
with status 1 printing nothing; a `CLIAbort` prints its message and exits
with its declared code; a `SystemExit` (including a `CLIHalt`) exits with
its carried code and no extra message; every other exception — provider
errors included — prints its string form and exits with status 1. -/
theorem C2_main_exception_policy :
    main_on_exc Exc.keyboardInterrupt = (none, 1)
    ∧ (∀ m c, main_on_exc (Exc.cliAbort m c) = (some m, c))
    ∧ (∀ c, main_on_exc (Exc.systemExit c) = (none, c))
    ∧ (∀ c, main_on_exc (Exc.cliHalt c) = (none, c))
    ∧ (∀ m, main_on_exc (Exc.softLayerError m) = (some m, 1))
    ∧ (∀ m, main_on_exc (Exc.otherError m) = (some m, 1))
    ∧ (∀ e, (firstMatching e).isSome = true) := by
  refine ⟨rfl, fun m c => rfl, fun c => rfl, fun c => rfl, fun m => rfl,
    fun m => rfl, fun e => ?_⟩
  cases e <;> rfl

/-- C3 counterexample: with known module `hardware`, the argv
`["HARDWARE"]` does not succeed — the argparse choices check runs before
the lower-casing and is case-sensitive, so parsing fails with a usage
error — while the exact-case `["hardware"]` succeeds. -/
theorem C3_case_insensitive_counterexample :
    parse_primary_args ["hardware"] ["HARDWARE"] = PrimaryResult.usageError 2
    ∧ parse_primary_args ["hardware"] ["hardware"]
        = PrimaryResult.ok "hardware" [] [] := by
  constructor <;> rfl

/-- C3 amended: a first token that exactly (case-sensitively) matches one
of `'help' :: modules` parses successfully; the resolved module name is
the token lower-cased (and the `help` token triggers the usage halt);
any other first token fails argument parsing with a usage error. -/
theorem C3_amended_case_sensitive (modules argv : List String)
    (tok : String) (htok : (argv.head?).getD "help" = tok) :
    (tok ∈ "help" :: modules → strLower tok ≠ "help" →
      parse_primary_args modules argv
        = PrimaryResult.ok (strLower tok) argv.tail [])
    ∧ (tok ∈ "help" :: modules → strLower tok = "help" →
      parse_primary_args modules argv = PrimaryResult.halt 0)
    ∧ (tok ∉ "help" :: modules →
      parse_primary_args modules argv = PrimaryResult.usageError 2) := by
  subst htok
  refine ⟨fun h1 h2 => ?_, fun h1 h2 => ?_, fun h1 => ?_⟩
  · simp [parse_primary_args, h1, h2]
  · simp [parse_primary_args, h1, h2]
  · simp [parse_primary_args, h1]

/-- Witness for the amended C3 at a concrete module list and argv. -/
theorem C3_amended_case_sensitive_witness :
    parse_primary_args ["hardware"] ["hardware", "list"]
      = PrimaryResult.ok "hardware" ["list"] []
    ∧ parse_primary_args ["hardware"] ["nope"] = PrimaryResult.usageError 2 := by
  have h := C3_amended_case_sensitive ["hardware"] ["hardware", "list"]
    "hardware" rfl
  have h2 := C3_amended_case_sensitive ["hardware"] ["nope"] "nope" rfl
  have hlow : strLower "hardware" = "hardware" := by decide
  constructor
  · have := h.1 (by decide) (by decide)
    rwa [hlow] at this
  · exact h2.2.2 (by decide)

/-- C4: for every FormattedItem, `format_output` returns its display
(formatted) string in every mode other than `raw`; in `raw` mode the item
falls through unchanged, and what surfaces — its plain string form — is
its raw (original) value. -/
theorem C4_formatted_item_by_mode (original formatted fmt : String)
    (h : fmt ≠ "raw") :
    format_output (Data.fitem original formatted) fmt = Data.str formatted
    ∧ format_output (Data.fitem original formatted) "raw"
        = Data.fitem original formatted
    ∧ Data.toText (format_output (Data.fitem original formatted) "raw")
        = original := by
  refine ⟨?_, ?_, ?_⟩ <;> simp [format_output, h, Data.toText]

/-- Witness for C4 at a concrete FormattedItem in both modes. -/
theorem C4_formatted_item_by_mode_witness :
    format_output (Data.fitem "1536" "1.5G") "table" = Data.str "1.5G"
    ∧ Data.toText (format_output (Data.fitem "1536" "1.5G") "raw") = "1536" := by
  have h := C4_formatted_item_by_mode "1536" "1.5G" "table" (by decide)
  exact ⟨h.1, h.2.2⟩

/-- C8: `format_output` is the identity on plain text in every mode, and
hence idempotent on it (also with the default `table` mode of the inner
application). -/
theorem C8_identity_on_text (s fmt : String) :
    format_output (Data.str s) fmt = Data.str s
    ∧ format_output (format_output (Data.str s) fmt) fmt
        = format_output (Data.str s) fmt
    ∧ format_output (format_output (Data.str s) "table") "table"
        = format_output (Data.str s) "table" := by
  refine ⟨?_, ?_, ?_⟩ <;> simp [format_output]

theorem call_has_props_true_iff (c : Call) :
    ∀ props : List (CallProp × PVal),
      (call_has_props c props).1 = true ↔
        ∀ pv ∈ props, c.getProp pv.1 = pv.2 := by
  intro props
  induction props with
  | nil => simp [call_has_props]
  | cons pv rest ih =>
      obtain ⟨p, expected⟩ := pv
      by_cases h : c.getProp p = expected
      · simpa [call_has_props, h] using ih
      · simp only [call_has_props, if_pos (by simpa using h)]
        simp only [Bool.false_eq_true, false_iff]
        intro hall
        exact h (hall (p, expected) (List.mem_cons_self _ _))

theorem call_has_props_log_records (c : Call) :
    ∀ props : List (CallProp × PVal),
      ∀ entry ∈ (call_has_props c props).2,
        entry.service = c.service ∧ entry.method = c.method
        ∧ (entry.prop, entry.expected) ∈ props
        ∧ entry.actual = c.getProp entry.prop
        ∧ entry.actual ≠ entry.expected := by
  intro props
  induction props with
  | nil => simp [call_has_props]
  | cons pv rest ih =>
      obtain ⟨p, expected⟩ := pv
      intro entry hentry
      by_cases h : c.getProp p = expected
      · rw [call_has_props, if_neg (by simpa using h)] at hentry
        obtain ⟨h1, h2, h3, h4, h5⟩ := ih entry hentry
        exact ⟨h1, h2, List.mem_cons_of_mem _ h3, h4, h5⟩
      · rw [call_has_props, if_pos (by simpa using h)] at hentry
        simp only [List.mem_singleton] at hentry
        subst hentry
        exact ⟨rfl, rfl, List.mem_cons_self _ _, rfl, fun hh => h hh⟩

theorem assert_loop_none_iff (s m : String) (props : List (CallProp × PVal)) :
    ∀ cs : List Call,
      (assert_loop s m props cs).1 = none ↔
        ∃ c ∈ cs, (call_has_props c props).1 = true := by
  intro cs
  induction cs with
  | nil => simp [assert_loop]
  | cons c rest ih =>
      by_cases h : (call_has_props c props).1 = true
      · simp [assert_loop, h]
      · simp [assert_loop, h, ih]

theorem assert_loop_some_msg (s m : String) (props : List (CallProp × PVal)) :
    ∀ cs : List Call, ∀ msg,
      (assert_loop s m props cs).1 = some msg → msg = assert_msg s m props := by
  intro cs
  induction cs with
  | nil =>
      intro msg h
      simp only [assert_loop, Option.some.injEq] at h
      exact h.symm
  | cons c rest ih =>
      intro msg h
      by_cases hc : (call_has_props c props).1 = true
      · simp [assert_loop, hc] at h
      · rw [assert_loop] at h
        simp only [hc, if_false, Bool.false_eq_true] at h
        exact ih msg h

theorem assert_loop_log_origin (s m : String) (props : List (CallProp × PVal)) :
    ∀ cs : List Call, ∀ entry ∈ (assert_loop s m props cs).2,
      ∃ c ∈ cs, entry ∈ (call_has_props c props).2 := by
  intro cs
  induction cs with
  | nil => simp [assert_loop]
  | cons c rest ih =>
      intro entry hentry
      by_cases hc : (call_has_props c props).1 = true
      · rw [assert_loop] at hentry
        simp only [hc, if_true] at hentry
        exact ⟨c, List.mem_cons_self _ _, hentry⟩
      · rw [assert_loop] at hentry
        simp only [hc, if_false, Bool.false_eq_true, List.mem_append] at hentry
        rcases hentry with h1 | h2
        · exact ⟨c, List.mem_cons_self _ _, h1⟩
        · obtain ⟨c2, hc2, he2⟩ := ih entry h2
          exact ⟨c2, List.mem_cons_of_mem _ hc2, he2⟩

theorem mem_calls_query (log : List Call) (s m : String) (c : Call) :
    c ∈ calls_query log (some s) (some m) ↔
      c ∈ log ∧ c.service = s ∧ c.method = m := by
  simp [calls_query, List.mem_filter, Bool.and_eq_true, beq_iff_eq, and_assoc]

/-- C5: `assert_called_with` returns normally exactly when some call
logged for the service and method has, for every given property, an
actual value equal to the expected one; otherwise it raises a
deterministic assertion message naming the service, the method and the
expected properties, and every mismatch record emitted along the way
names a property given in `props` with its expected value and the
genuinely differing actual value found on a logged call for that service
and method. -/
theorem C5_assert_called_with_spec (log : List Call) (service method : String)
    (props : List (CallProp × PVal)) :
    ((assert_called_with log service method props).1 = none ↔
      ∃ c ∈ log, c.service = service ∧ c.method = method
        ∧ ∀ pv ∈ props, c.getProp pv.1 = pv.2)
    ∧ (∀ msg, (assert_called_with log service method props).1 = some msg →
        msg = assert_msg service method props)
    ∧ (∀ entry ∈ (assert_called_with log service method props).2,
        ∃ c ∈ log, c.service = service ∧ c.method = method
          ∧ entry.service = c.service ∧ entry.method = c.method
          ∧ (entry.prop, entry.expected) ∈ props
          ∧ entry.actual = c.getProp entry.prop
          ∧ entry.actual ≠ entry.expected) := by
  refine ⟨?_, ?_, ?_⟩
  · rw [assert_called_with, assert_loop_none_iff]
    constructor
    · rintro ⟨c, hc, hp⟩
      rw [mem_calls_query] at hc
      exact ⟨c, hc.1, hc.2.1, hc.2.2, (call_has_props_true_iff c props).mp hp⟩
    · rintro ⟨c, hc, hs, hm, hp⟩
      exact ⟨c, (mem_calls_query log service method c).mpr ⟨hc, hs, hm⟩,
        (call_has_props_true_iff c props).mpr hp⟩
  · intro msg h
    exact assert_loop_some_msg service method props _ msg h
  · intro entry he
    obtain ⟨c, hc, hentry⟩ :=
      assert_loop_log_origin service method props _ entry he
    rw [mem_calls_query] at hc
    obtain ⟨h1, h2, h3, h4, h5⟩ := call_has_props_log_records c props entry hentry
    exact ⟨c, hc.1, hc.2.1, hc.2.2, h1, h2, h3, h4, h5⟩

/-- Witness for C5: a concrete log where the assertion fails with the
deterministic message, and one where it succeeds. -/
theorem C5_assert_called_with_spec_witness :
    (assert_called_with [wCall] "SoftLayer_Account" "getObject"
        [(CallProp.identifier, PVal.int 999)]).1
      = some (assert_msg "SoftLayer_Account" "getObject"
          [(CallProp.identifier, PVal.int 999)])
    ∧ (assert_called_with [wCall] "SoftLayer_Account" "getObject"
        [(CallProp.identifier, PVal.int 123)]).1 = none := by
  have h := C5_assert_called_with_spec [wCall] "SoftLayer_Account" "getObject"
    [(CallProp.identifier, PVal.int 999)]
  have h2 := C5_assert_called_with_spec [wCall] "SoftLayer_Account" "getObject"
    [(CallProp.identifier, PVal.int 123)]
  constructor
  · cases ho : (assert_called_with [wCall] "SoftLayer_Account" "getObject"
        [(CallProp.identifier, PVal.int 999)]).1 with
    | none => exact absurd ((h.1).mp ho) (by decide)
    | some msg => exact congrArg some (h.2.1 msg ho)
  · exact (h2.1).mpr (by decide)

theorem str_data_append (s t : String) : (s ++ t).data = s.data ++ t.data :=
  rfl

theorem strContains_empty (s : String) : StrContains s "" :=
  ⟨[], s.data, by simp⟩

theorem strContains_self (s : String) : StrContains s s :=
  ⟨[], [], by simp⟩

theorem strContains_append_left (p s n : String) (h : StrContains s n) :
    StrContains (p ++ s) n := by
  obtain ⟨pre, post, hh⟩ := h
  exact ⟨p.data ++ pre, post, by simp [str_data_append, hh]⟩

theorem strContains_append_right (s p n : String) (h : StrContains s n) :
    StrContains (s ++ p) n := by
  obtain ⟨pre, post, hh⟩ := h
  exact ⟨pre, post ++ p.data, by simp [str_data_append, hh]⟩

theorem strContains_trans (s t n : String) (h1 : StrContains s t)
    (h2 : StrContains t n) : StrContains s n := by
  obtain ⟨p1, q1, e1⟩ := h1
  obtain ⟨p2, q2, e2⟩ := h2
  exact ⟨p1 ++ p2, q2 ++ q1, by simp [e1, e2]⟩

theorem concat_map_contains {α : Type} (g : α → String) :
    ∀ (xs : List α) (a : α), a ∈ xs →
      StrContains (concatStr (xs.map g)) (g a) := by
  intro xs
  induction xs with
  | nil => simp
  | cons x rest ih =>
      intro a ha
      rcases List.mem_cons.mp ha with h | h
      · subst h
        exact strContains_append_right _ _ _ (strContains_self _)
      · exact strContains_append_left _ _ _ (ih a h)

/-- C7: with an empty positional-argument list, `parse_module_args`
always halts with exit code 0 after printing usage text, and that usage
text contains every registered action name. -/
theorem C7_no_posargs_usage_halt (progBase moduleDoc module_name : String)
    (actions : List (String × String)) (argv : List String) :
    parse_module_args progBase moduleDoc module_name actions [] argv
      = ModuleArgsResult.halt 0
          (module_help_text progBase module_name moduleDoc actions)
    ∧ ∀ a ∈ actions,
        StrContains (module_help_text progBase module_name moduleDoc actions)
          a.1 := by
  constructor
  · simp [parse_module_args]
  · intro a ha
    by_cases hne : a.1 = ""
    · rw [hne]; exact strContains_empty _
    · unfold module_help_text
      apply strContains_append_left
      have hblock := concat_map_contains
        (fun a : String × String =>
          if a.1 = "" then "" else "    " ++ a.1 ++ "  " ++ a.2 ++ "\n")
        actions a ha
      simp only [hne, if_false] at hblock
      refine strContains_trans _ _ _ hblock ?_
      have h0 : StrContains ("    " ++ a.1) a.1 :=
        strContains_append_left _ _ _ (strContains_self _)
      exact strContains_append_right _ _ _
        (strContains_append_right _ _ _ (strContains_append_right _ _ _ h0))

/-- Witness for C7 at a concrete module with one registered action. -/
theorem C7_no_posargs_usage_halt_witness :
    parse_module_args "sl" "Hardware chassis" "hardware"
        [("list", "List hardware")] [] ["--format=raw"]
      = ModuleArgsResult.halt 0
          (module_help_text "sl" "hardware" "Hardware chassis"
            [("list", "List hardware")])
    ∧ StrContains
        (module_help_text "sl" "hardware" "Hardware chassis"
          [("list", "List hardware")]) "list" := by
  have h := C7_no_posargs_usage_halt "sl" "Hardware chassis" "hardware"
    [("list", "List hardware")] ["--format=raw"]
  exact ⟨h.1, h.2 ("list", "List hardware") (List.mem_cons_self _ _)⟩

theorem format_row_eq_map (ds : List Data) :
    format_row ds = ds.map (fun d => format_output d "table") := by
  induction ds with
  | nil => simp [format_row]
  | cons d rest ih => simp [format_row, ih]

theorem format_rows_eq_map (rows : List (List Data)) :
    format_rows rows
      = rows.map (fun r => r.map (fun d => format_output d "table")) := by
  induction rows with
  | nil => simp [format_rows]
  | cons r rest ih => simp [format_rows, ih, format_row_eq_map]

/-- C9: `format_prettytable` mutates the caller's Table in place — after
it returns, every cell of the table's rows has been replaced by the
result of recursively formatting that cell (with the default `table`
mode), and on a Table holding a FormattedItem cell the rows really do
change. -/
theorem C9_format_prettytable_mutates (t : TableObj) :
    (format_prettytable_st t).2.columns = t.columns
    ∧ (format_prettytable_st t).2.rows
        = t.rows.map (fun r => r.map (fun d => format_output d "table"))
    ∧ (format_prettytable_st ⟨["RAM"], [[Data.fitem "2048" "2G"]]⟩).2.rows
        ≠ (⟨["RAM"], [[Data.fitem "2048" "2G"]]⟩ : TableObj).rows := by
  refine ⟨rfl, format_rows_eq_map t.rows, ?_⟩
  intro hcon
  simp [format_prettytable_st, format_rows, format_row, format_output] at hcon

/-- Witness for C9 at a concrete single-cell Table. -/
theorem C9_format_prettytable_mutates_witness :
    (format_prettytable_st ⟨["RAM"], [[Data.fitem "2048" "2G"]]⟩).2.rows
      = [[Data.str "2G"]] := by
  have h := C9_format_prettytable_mutates ⟨["RAM"], [[Data.fitem "2048" "2G"]]⟩
  rw [h.2.1]
  simp [format_output]

theorem mem_joinLines_head {c : Char} {l : List Char} (ls : List (List Char))
    (h : c ∈ l) : c ∈ joinLines (l :: ls) := by
  cases ls with
  | nil => simpa [joinLines] using h
  | cons l2 ls2 =>
      simp only [joinLines]
      exact List.mem_append_left _ h

theorem mem_joinLines {c : Char} :
    ∀ {L : List (List Char)}, c ∈ joinLines L → c = '\n' ∨ ∃ l ∈ L, c ∈ l := by
  intro L
  induction L with
  | nil => simp [joinLines]
  | cons l ls ih =>
      cases ls with
      | nil =>
          intro h
          exact Or.inr ⟨l, List.mem_cons_self _ _, by simpa [joinLines] using h⟩
      | cons l2 ls2 =>
          intro h
          simp only [joinLines] at h
          rcases List.mem_append.mp h with h1 | h2
          · exact Or.inr ⟨l, List.mem_cons_self _ _, h1⟩
          · rcases List.mem_cons.mp h2 with h3 | h4
            · exact Or.inl h3
            · rcases ih h4 with h5 | ⟨l3, hl3, hc3⟩
              · exact Or.inl h5
              · exact Or.inr ⟨l3, List.mem_cons_of_mem _ hl3, hc3⟩

theorem mem_padTo {c : Char} {w : Nat} {a : Bool} {s : List Char}
    (h : c ∈ padTo w a s) : c = ' ' ∨ c ∈ s := by
  unfold padTo at h
  by_cases ha : a = true
  · rw [if_pos ha] at h
    rcases List.mem_append.mp h with h1 | h2
    · exact Or.inr h1
    · exact Or.inl (List.eq_of_mem_replicate h2)
  · rw [if_neg ha] at h
    rcases List.mem_append.mp h with h1 | h2
    · rcases List.mem_append.mp h1 with h3 | h4
      · exact Or.inl (List.eq_of_mem_replicate h3)
      · exact Or.inr h4
    · exact Or.inl (List.eq_of_mem_replicate h2)

theorem mem_cellChunk {c : Char} {t : PTable} {i : Nat} {s : String}
    (h : c ∈ cellChunk t i s) : c = ' ' ∨ c ∈ s.data := by
  unfold cellChunk at h
  rcases List.mem_cons.mp h with h1 | h2
  · exact Or.inl h1
  · rcases List.mem_append.mp h2 with h3 | h4
    · exact mem_padTo h3
    · exact Or.inl (List.mem_singleton.mp h4)

theorem mem_rowLine_noborder {c : Char} {t : PTable} {r : List String}
    (hb : t.border = false) (h : c ∈ rowLine t r) :
    c = ' ' ∨ ∃ s ∈ r, c ∈ s.data := by
  unfold rowLine at h
  rw [hb] at h
  simp only [Bool.false_eq_true, if_false, List.mem_flatten, List.mem_map] at h
  obtain ⟨block, ⟨i, _, hblock⟩, hcblock⟩ := h
  subst hblock
  rcases mem_cellChunk hcblock with h1 | h2
  · exact Or.inl h1
  · cases hg : r.get? i with
    | none => rw [hg] at h2; simp at h2
    | some s =>
        rw [hg] at h2
        exact Or.inr ⟨s, List.get?_mem hg, h2⟩

theorem junction_mem_render (t : PTable) (hf : t.hrules = HRuleStyle.frame) :
    t.junction_char ∈ (t.render).data := by
  show t.junction_char ∈ joinLines t.renderLines
  have : t.renderLines = ruleLine t ::
      ((if t.header then
          [rowLine t t.columns]
            ++ (if t.hrules = HRuleStyle.frame then [ruleLine t] else [])
        else [])
        ++ t.rows.map (fun r => rowLine t r)
        ++ (if t.hrules = HRuleStyle.frame then [ruleLine t] else [])) := by
    simp [PTable.renderLines, hf]
  rw [this]
  exact mem_joinLines_head _ (List.mem_cons_self _ _)

theorem horizontal_mem_render (t : PTable) (hf : t.hrules = HRuleStyle.frame)
    (hcols : t.columns ≠ []) : t.horizontal_char ∈ (t.render).data := by
  show t.horizontal_char ∈ joinLines t.renderLines
  have hline : t.renderLines = ruleLine t ::
      ((if t.header then
          [rowLine t t.columns]
            ++ (if t.hrules = HRuleStyle.frame then [ruleLine t] else [])
        else [])
        ++ t.rows.map (fun r => rowLine t r)
        ++ (if t.hrules = HRuleStyle.frame then [ruleLine t] else [])) := by
    simp [PTable.renderLines, hf]
  rw [hline]
  apply mem_joinLines_head
  unfold ruleLine
  apply List.mem_cons_of_mem
  rw [List.mem_flatten]
  refine ⟨List.replicate (colWidth t 0 + 2) t.horizontal_char
    ++ [t.junction_char], ?_, ?_⟩
  · rw [List.mem_map]
    exact ⟨0, List.mem_range.mpr (List.length_pos.mpr hcols), rfl⟩
  · exact List.mem_append_left _ (List.mem_replicate.mpr ⟨by omega, rfl⟩)

theorem render_chars_noborder (t : PTable) (hb : t.border = false)
    (hh : t.header = false) (hr : t.hrules = HRuleStyle.noRules) (c : Char)
    (hc : c ∈ (t.render).data) :
    c = '\n' ∨ c = ' ' ∨ ∃ row ∈ t.rows, ∃ s ∈ row, c ∈ s.data := by
  have hc2 : c ∈ joinLines t.renderLines := hc
  have hline : t.renderLines = t.rows.map (fun r => rowLine t r) := by
    simp [PTable.renderLines, hr, hh]
  rw [hline] at hc2
  rcases mem_joinLines hc2 with h1 | ⟨l, hl, hcl⟩
  · exact Or.inl h1
  · rw [List.mem_map] at hl
    obtain ⟨row, hrow, hrowl⟩ := hl
    subst hrowl
    rcases mem_rowLine_noborder hb hcl with h2 | ⟨s, hs, hcs⟩
    · exact Or.inr (Or.inl h2)
    · exact Or.inr (Or.inr ⟨row, hrow, s, hs, hcs⟩)

theorem format_prettytable_def (cols : List String) (rows : List (List Data)) :
    format_prettytable cols rows =
      { columns := cols
        rows := (format_rows rows).map (fun r => r.map Data.toText)
        hrules := HRuleStyle.frame
        horizontal_char := '.'
        vertical_char := ':'
        junction_char := ':'
        border := true
        header := true
        leftAlignedCols := [] } := by
  rw [format_prettytable]
  rfl

/-- C6: in `table` mode the formatter renders a Table with framed borders
whose horizontal rule character is `.` and whose vertical and junction
characters are `:` — so (for a Table with at least one column) the
rendered output contains those glyphs — while `raw` mode renders with the
border off, no header row and every column left-aligned, so the rendered
output contains neither glyph unless a cell's own text does. -/
theorem C6_border_glyphs_by_mode (cols : List String)
    (rows : List (List Data)) :
    (format_prettytable cols rows).horizontal_char = '.'
    ∧ (format_prettytable cols rows).vertical_char = ':'
    ∧ (format_prettytable cols rows).junction_char = ':'
    ∧ (format_prettytable cols rows).hrules = HRuleStyle.frame
    ∧ (format_prettytable cols rows).border = true
    ∧ (cols ≠ [] →
        '.' ∈ ((format_prettytable cols rows).render).data
        ∧ ':' ∈ ((format_prettytable cols rows).render).data)
    ∧ (format_no_tty cols rows).border = false
    ∧ (format_no_tty cols rows).header = false
    ∧ (format_no_tty cols rows).hrules = HRuleStyle.noRules
    ∧ (format_no_tty cols rows).leftAlignedCols = cols
    ∧ ((∀ r ∈ rows, ∀ d ∈ r,
          '.' ∉ (Data.toText d).data ∧ ':' ∉ (Data.toText d).data) →
        '.' ∉ ((format_no_tty cols rows).render).data
        ∧ ':' ∉ ((format_no_tty cols rows).render).data) := by
  have hdef := format_prettytable_def cols rows
  refine ⟨by rw [hdef], by rw [hdef], by rw [hdef], by rw [hdef], by rw [hdef],
    fun hcols => ⟨?_, ?_⟩, rfl, rfl, rfl, rfl, fun hclean => ⟨?_, ?_⟩⟩
  · have h := horizontal_mem_render (format_prettytable cols rows)
      (by rw [hdef]) (by rw [hdef]; exact hcols)
    rwa [show (format_prettytable cols rows).horizontal_char = '.'
      from by rw [hdef]] at h
  · have h := junction_mem_render (format_prettytable cols rows) (by rw [hdef])
    rwa [show (format_prettytable cols rows).junction_char = ':'
      from by rw [hdef]] at h
  all_goals
    intro hmem
    rcases render_chars_noborder (format_no_tty cols rows) rfl rfl rfl _ hmem
      with h1 | h2 | ⟨row, hrow, s, hs, hcs⟩
  · exact absurd h1 (by decide)
  · exact absurd h2 (by decide)
  · have : row ∈ rows.map (fun r => r.map Data.toText) := hrow
    rw [List.mem_map] at this
    obtain ⟨r0, hr0, hr0e⟩ := this
    subst hr0e
    rw [List.mem_map] at hs
    obtain ⟨d, hd, hde⟩ := hs
    subst hde
    exact (hclean r0 hr0 d hd).1 hcs
  · exact absurd h1 (by decide)
  · exact absurd h2 (by decide)
  · have : row ∈ rows.map (fun r => r.map Data.toText) := hrow
    rw [List.mem_map] at this
    obtain ⟨r0, hr0, hr0e⟩ := this
    subst hr0e
    rw [List.mem_map] at hs
    obtain ⟨d, hd, hde⟩ := hs
    subst hde
    exact (hclean r0 hr0 d hd).2 hcs

/-- Witness for C6 at the spec's round-trip example: columns `A`, `B` and
the single row `1`, `2`. -/
theorem C6_border_glyphs_by_mode_witness :
    '.' ∈ ((format_prettytable ["A", "B"]
        [[Data.str "1", Data.str "2"]]).render).data
    ∧ ':' ∈ ((format_prettytable ["A", "B"]
        [[Data.str "1", Data.str "2"]]).render).data
    ∧ '.' ∉ ((format_no_tty ["A", "B"]
        [[Data.str "1", Data.str "2"]]).render).data
    ∧ ':' ∉ ((format_no_tty ["A", "B"]
        [[Data.str "1", Data.str "2"]]).render).data := by
  have h := C6_border_glyphs_by_mode ["A", "B"] [[Data.str "1", Data.str "2"]]
  have hglyphs := h.2.2.2.2.2.1 (by decide)
  have hraw := h.2.2.2.2.2.2.2.2.2.2 (by decide)
  exact ⟨hglyphs.1, hglyphs.2, hraw.1, hraw.2⟩

end SLVerify
